import Mathlib

/-!
Verification of the AI_Research_Assistant repository: a shallow embedding of
the metadata normalizer (`services/extract_service.py`), the OpenAlex client
wrapper (`services/openalex_service.py`) and the HTTP search handler
(`views.py`), together with proofs about the behaviour each claim of the
design specification describes.

Raw provider records are JSON-like Python values.  Python dictionary access,
truthiness, `or`, iteration, slicing, `str.strip` and `int()` parsing are
modelled explicitly; code that can raise is embedded in `Except String`,
where `Except.error` stands for an uncaught Python exception.
-/

set_option maxHeartbeats 1000000

/-- A JSON-like Python value: `None`, booleans, integers, strings, lists and
dictionaries (association lists with string keys, insertion-ordered, as
Python dicts are).  Floating point numbers do not occur in any property
verified here and are not modelled. -/
inductive JVal where
  | null
  | bool (b : Bool)
  | int (n : Int)
  | str (s : String)
  | arr (xs : List JVal)
  | obj (fields : List (String × JVal))

/-- Python truthiness (`bool(v)`) for the modelled values: `None`, `False`,
`0`, `""`, `[]` and `{}` are falsy, everything else is truthy. -/
def pyTruthy : JVal → Bool
  | .null => false
  | .bool b => b
  | .int n => n != 0
  | .str s => s != ""
  | .arr xs => !xs.isEmpty
  | .obj fs => !fs.isEmpty

/-- Python `a or b` specialised to a default: the left value if truthy,
otherwise the right value. -/
def pyOr (a b : JVal) : JVal := if pyTruthy a then a else b

/-- First-match association-list lookup; Python dict keys are unique, so this
is dict lookup. -/
def jlookup : List (String × JVal) → String → Option JVal
  | [], _ => none
  | (k', v) :: fs, k => if k' = k then some v else jlookup fs k

/-- Total field access: the value stored under `k` when `v` is a dict that
has the key, `none` otherwise.  Used to state properties; the embedded code
itself goes through `pyGet`/`pyGetD`, which can raise. -/
def jget (v : JVal) (k : String) : Option JVal :=
  match v with
  | .obj fs => jlookup fs k
  | _ => none

/-- Python `v.get(k)` (one-argument `dict.get`): `None` when the key is
absent, and an `AttributeError` when `v` is not a dict. -/
def pyGet (v : JVal) (k : String) : Except String (Option JVal) :=
  match v with
  | .obj fs => .ok (jlookup fs k)
  | _ => .error "AttributeError"

/-- Python `v.get(k, d)` (two-argument `dict.get`): the default is used only
when the key is absent; a key present with value `None` yields `None`. -/
def pyGetD (v : JVal) (k : String) (d : JVal) : Except String JVal :=
  match v with
  | .obj fs => .ok ((jlookup fs k).getD d)
  | _ => .error "AttributeError"

/-- Python iteration `for x in v`: lists yield their elements, strings their
one-character substrings, dicts their keys; other values raise `TypeError`. -/
def pyIter : JVal → Except String (List JVal)
  | .arr xs => .ok xs
  | .str s => .ok (s.toList.map fun c => .str (String.singleton c))
  | .obj fs => .ok (fs.map fun f => .str f.1)
  | _ => .error "TypeError: not iterable"

/-- Python slicing `v[:5]`: the first five elements of a list, the first five
characters of a string (as one-character strings, matching what iterating the
sliced string then yields); other values raise `TypeError`. -/
def pySlice5 : JVal → Except String (List JVal)
  | .arr xs => .ok (xs.take 5)
  | .str s => .ok ((s.toList.take 5).map fun c => .str (String.singleton c))
  | _ => .error "TypeError: unsliceable"

/-- Python whitespace characters stripped by `str.strip()` and ignored by
`int()` (the ASCII ones; the strings handled by this API are ASCII). -/
def pyWs (c : Char) : Bool :=
  c == ' ' || c == '\t' || c == '\n' || c == '\r' || c == '\x0b' || c == '\x0c'

/-- `str.strip()` on a character list: drop whitespace from both ends. -/
def stripList (l : List Char) : List Char :=
  ((l.dropWhile pyWs).reverse.dropWhile pyWs).reverse

/-- Python `s.strip()`. -/
def pyStrip (s : String) : String := ⟨stripList s.data⟩

/-- Digits (with Python's single-underscore-between-digits rule) to a value:
`parseDigitsCore acc l` consumes `l` after `acc` has been accumulated. -/
def parseDigitsCore (acc : Nat) : List Char → Option Nat
  | [] => some acc
  | '_' :: c :: cs =>
    if c.isDigit then parseDigitsCore (acc * 10 + (c.toNat - 48)) cs else none
  | ['_'] => none
  | c :: cs =>
    if c.isDigit then parseDigitsCore (acc * 10 + (c.toNat - 48)) cs else none

/-- A non-empty digit run (first character must be a digit). -/
def parseDigits : List Char → Option Nat
  | [] => none
  | c :: cs =>
    if c.isDigit then parseDigitsCore (c.toNat - 48) cs else none

/-- Python `int(s)` on a decimal string: surrounding whitespace is ignored,
an optional single `+`/`-` sign is allowed, then a non-empty digit run;
`none` models the `ValueError` Python raises on anything else. -/
def pyIntParse (s : String) : Option Int :=
  match stripList s.data with
  | '+' :: rest => (parseDigits rest).map Int.ofNat
  | '-' :: rest => (parseDigits rest).map (fun n => -(Int.ofNat n : Int))
  | rest => (parseDigits rest).map Int.ofNat

/-- Sequence a fallible function over a list, stopping at the first error:
the behaviour of a Python loop or comprehension whose body may raise. -/
def mapE (f : α → Except String β) : List α → Except String (List β)
  | [] => .ok []
  | x :: xs => do
    let y ← f x
    let ys ← mapE f xs
    pure (y :: ys)

mutual

/-- Structural equality of modelled Python values (used for dict keys). -/
def jvalEq : JVal → JVal → Bool
  | .null, .null => true
  | .bool a, .bool b => a == b
  | .int a, .int b => a == b
  | .str a, .str b => a == b
  | .arr as, .arr bs => jvalEqList as bs
  | .obj as, .obj bs => jvalEqFields as bs
  | _, _ => false

/-- Elementwise equality of value lists. -/
def jvalEqList : List JVal → List JVal → Bool
  | [], [] => true
  | a :: as, b :: bs => jvalEq a b && jvalEqList as bs
  | _, _ => false

/-- Elementwise equality of dict field lists. -/
def jvalEqFields : List (String × JVal) → List (String × JVal) → Bool
  | [], [] => true
  | (ka, va) :: as, (kb, vb) :: bs => ka == kb && jvalEq va vb && jvalEqFields as bs
  | _, _ => false

end

/-- `True` exactly for dict values (`isinstance(v, dict)`). -/
def JVal.isDict : JVal → Bool
  | .obj _ => true
  | _ => false

/-- Does `hay` start with `needle`? -/
def leadsWith : List Char → List Char → Bool
  | [], _ => true
  | _, [] => false
  | a :: as, b :: bs => a == b && leadsWith as bs

/-- Does the character list contain `needle` as a contiguous run? -/
def containsSeq (needle : List Char) : List Char → Bool
  | [] => leadsWith needle []
  | c :: rest => leadsWith needle (c :: rest) || containsSeq needle rest

/-- Does string `hay` contain string `needle` as a substring? -/
def strContains (hay needle : String) : Bool :=
  containsSeq needle.data hay.data

/-- `" ".join(ws)`. -/
def joinSpace (ws : List String) : String := String.intercalate " " ws

/-! ## `services/extract_service.py` — the metadata normalizer -/

/-- One extracted author record (`extract_service.py:56-62`): the values of
`name`, `orcid` and the institution entries stay raw Python values, since the
source substitutes them without type checks. -/
structure Author where
  name : JVal
  orcid : JVal
  institutions : List JVal

/-- One extracted concept record (`extract_service.py:111-114`). -/
structure PaperConcept where
  name : JVal
  score : JVal

/-- The structured metadata dict built by `ExtractionService.extract_metadata`
(`extract_service.py:28-43`), field for field. -/
structure Metadata where
  openalex_id : JVal
  title : JVal
  authors : List Author
  abstract : String
  publication_year : JVal
  doi : JVal
  cited_by_count : JVal
  concepts : List PaperConcept
  source : JVal
  is_open_access : JVal
  oa_status : JVal
  full_text_url : JVal

/-- `words[pos] = word` on the position-to-word dict of
`_reconstruct_abstract` (`extract_service.py:76-79`): Python dict update —
replace in place when the key exists, append otherwise. -/
def dictInsert (d : List (JVal × String)) (k : JVal) (v : String) : List (JVal × String) :=
  if d.any (fun kv => jvalEq kv.1 k) then
    d.map (fun kv => if jvalEq kv.1 k then (k, v) else kv)
  else d ++ [(k, v)]

/-- `words[i]` on the position-to-word dict. `i` always comes from the dict's
own key list, so the lookup never misses; the `Option` is consumed with a
default that is never used. -/
def dictGet (d : List (JVal × String)) (k : JVal) : Option String :=
  (d.find? (fun kv => jvalEq kv.1 k)).map (·.2)

/-- The loop of `_reconstruct_abstract` (`extract_service.py:75-79`): for
every `(word, positions)` item of the inverted index in order, record `word`
at every listed position, skipping non-list position values. -/
def buildWords (inverted : List (String × JVal)) : List (JVal × String) :=
  inverted.foldl
    (fun d wv =>
      match wv.2 with
      | .arr ps => ps.foldl (fun d p => dictInsert d p wv.1) d
      | _ => d)
    []

/-- Extract an all-integer key list, in order. -/
def asInts : List JVal → Option (List Int)
  | [] => some []
  | .int n :: ks => (asInts ks).map (n :: ·)
  | _ => none

/-- Extract an all-string key list, in order. -/
def asStrs : List JVal → Option (List String)
  | [] => some []
  | .str s :: ks => (asStrs ks).map (s :: ·)
  | _ => none

/-- Python `sorted(words.keys())`: positions in an inverted index are
integers, so the keys are sorted as integers; an all-string key set sorts
lexicographically, a single key needs no comparison, and a heterogeneous key
set raises `TypeError` (Python compares keys pairwise and mixed types do not
compare). -/
def sortedKeys (ks : List JVal) : Except String (List JVal) :=
  match asInts ks with
  | some ns => .ok ((ns.insertionSort (· ≤ ·)).map JVal.int)
  | none =>
    if ks.length ≤ 1 then .ok ks
    else
      match asStrs ks with
      | some ss => .ok ((ss.insertionSort (· ≤ ·)).map JVal.str)
      | none => .error "TypeError: unorderable key types"

namespace ExtractionService

/-- `ExtractionService._reconstruct_abstract` (`extract_service.py:66-82`):
return `""` when the inverted-index field is absent, falsy or not a dict;
otherwise place each word at each of its listed positions (later writes win)
and join the words over the sorted positions with single spaces. -/
def reconstruct_abstract (work : JVal) : Except String String := do
  let inverted := (← pyGet work "abstract_inverted_index").getD .null
  if !pyTruthy inverted || !inverted.isDict then
    pure ""
  else
    match inverted with
    | .obj entries =>
      let words := buildWords entries
      let ks ← sortedKeys (words.map (·.1))
      pure (joinSpace (ks.map fun k => (dictGet words k).getD ""))
    | _ => pure ""

/-- `ExtractionService._extract_authors` (`extract_service.py:45-64`): one
output record per authorship entry, in input order. -/
def extract_authors (work : JVal) : Except String (List Author) := do
  let ships ← pyIter (← pyGetD work "authorships" (.arr []))
  mapE
    (fun ship => do
      let author ← pyGetD ship "author" (.obj [])
      let institutions ← mapE
        (fun inst => do pure ((← pyGet inst "display_name").getD .null))
        (← pyIter (← pyGetD ship "institutions" (.arr [])))
      let name ← pyGetD author "display_name" (.str "")
      let orcid := pyOr ((← pyGet author "orcid").getD .null) (.str "")
      pure (Author.mk name orcid institutions))
    ships

/-- `ExtractionService._extract_concepts` (`extract_service.py:106-115`):
the first five provider concepts, each mapped to name and score. -/
def extract_concepts (work : JVal) : Except String (List PaperConcept) := do
  let cs ← pySlice5 (← pyGetD work "concepts" (.arr []))
  mapE
    (fun concept => do
      let name := (← pyGet concept "display_name").getD .null
      let score := (← pyGet concept "score").getD .null
      pure (PaperConcept.mk name score))
    cs

/-- `ExtractionService._extract_full_text_url` (`extract_service.py:84-104`):
`None` when `best_oa_location` is absent or falsy, otherwise the first truthy
of its `pdf_url` and `landing_page_url`, else `None`.  The function never
consults any other field. -/
def extract_full_text_url (work : JVal) : Except String JVal := do
  let best_oa := (← pyGet work "best_oa_location").getD .null
  if !pyTruthy best_oa then
    pure .null
  else do
    let pdf_url := (← pyGet best_oa "pdf_url").getD .null
    if pyTruthy pdf_url then
      pure pdf_url
    else do
      let landing_page := (← pyGet best_oa "landing_page_url").getD .null
      if pyTruthy landing_page then
        pure landing_page
      else
        pure .null

/-- The `source` entry of `extract_metadata` (`extract_service.py:38-40`):
Python evaluates the conditional expression's condition first
(`work.get("primary_location") and work.get("primary_location", {}).get("source")`),
then either the nested display-name access or `None`. -/
def extract_source (work : JVal) : Except String JVal := do
  let c1 := (← pyGet work "primary_location").getD .null
  if pyTruthy c1 then do
    let pl ← pyGetD work "primary_location" (.obj [])
    let c2 := (← pyGet pl "source").getD .null
    if pyTruthy c2 then do
      let pl2 ← pyGetD work "primary_location" (.obj [])
      let src ← pyGetD pl2 "source" (.obj [])
      pure ((← pyGet src "display_name").getD .null)
    else
      pure .null
  else
    pure .null

/-- `ExtractionService.extract_metadata` (`extract_service.py:14-43`): the
full normalizer, with the dict-literal entries evaluated in source order. -/
def extract_metadata (work : JVal) : Except String Metadata := do
  let openalex_id ← pyGetD work "id" (.str "")
  let title ← pyGetD work "title" (.str "")
  let authors ← extract_authors work
  let abstract ← reconstruct_abstract work
  let publication_year := (← pyGet work "publication_year").getD .null
  let doi ← pyGetD work "doi" (.str "")
  let cited_by_count ← pyGetD work "cited_by_count" (.int 0)
  let concepts ← extract_concepts work
  let source ← extract_source work
  let is_open_access ← pyGetD (← pyGetD work "open_access" (.obj [])) "is_oa" (.bool false)
  let oa_status := (← pyGet (← pyGetD work "open_access" (.obj [])) "oa_status").getD .null
  let full_text_url ← extract_full_text_url work
  pure (Metadata.mk openalex_id title authors abstract publication_year doi
    cited_by_count concepts source is_open_access oa_status full_text_url)

end ExtractionService

/-! ## `services/openalex_service.py` — the OpenAlex client wrapper -/

/-- A pyalex `.filter(...)` call made by `search_papers`
(`openalex_service.py:75-84`). -/
inductive WorksFilter where
  | isRetracted (b : Bool)
  | isOA (b : Bool)
  | oaStatus (s : String)
deriving DecidableEq

/-- The provider request `search_papers` assembles before `works_query.get`
runs: the search string, the applied filters in application order, and the
pagination arguments. -/
structure ProviderRequest where
  search : String
  filters : List WorksFilter
  per_page : Int
  page : Int
deriving DecidableEq

/-- The two exceptions `search_papers` can raise: `ValueError` from input
validation (`openalex_service.py:60-70`) and `OpenAlexAPIError` wrapping a
provider failure (`openalex_service.py:88-93`). -/
inductive SearchErr where
  | invalidArgument (msg : String)
  | apiError (msg : String)
deriving DecidableEq

/-- The query construction of `search_papers` (`openalex_service.py:73-85`):
`Works().search(query)` plus the conditionally applied filters.  `oa_status`
is tested for truthiness (`if oa_status:`), so only a non-empty string adds
a filter. -/
def builtRequest (query : String) (per_page page : Int)
    (exclude_retracted open_access_only : Bool) (oa_status : Option String) :
    ProviderRequest :=
  { search := query
    filters :=
      (if exclude_retracted then [WorksFilter.isRetracted false] else []) ++
      (if open_access_only then [WorksFilter.isOA true] else []) ++
      (match oa_status with
       | some s => if s ≠ "" then [WorksFilter.oaStatus s] else []
       | none => [])
    per_page := per_page
    page := page }

/-- The allowed `oa_status` values (`openalex_service.py:68`). -/
def validOaStatuses : List String := ["gold", "green", "hybrid", "bronze"]

namespace OpenAlexService

/-- `OpenAlexService.search_papers` (`openalex_service.py:33-93`).  The
network is abstracted as a `provider` oracle mapping the assembled request to
either a record list or a raised transport failure; everything the `try`
block raises is wrapped into one `OpenAlexAPIError`.  The `isinstance`
checks of the source always pass here because the embedding is typed. -/
def search_papers (provider : ProviderRequest → Except String (List JVal))
    (query : String) (per_page : Int := 25) (page : Int := 1)
    (exclude_retracted : Bool := true) (open_access_only : Bool := false)
    (oa_status : Option String := none) : Except SearchErr (List JVal) :=
  if query = "" ∨ pyStrip query = "" then
    .error (.invalidArgument "Query must be a non-empty string")
  else if per_page < 1 ∨ per_page > 200 then
    .error (.invalidArgument "per_page must be an integer between 1 and 200")
  else if page < 1 then
    .error (.invalidArgument "page must be a positive integer")
  else if (oa_status.any fun s => decide (s ∉ validOaStatuses)) then
    .error (.invalidArgument
      "oa_status must be one of ['gold', 'green', 'hybrid', 'bronze'] or None")
  else
    match provider
        (builtRequest query per_page page exclude_retracted open_access_only oa_status) with
    | .ok results => .ok results
    | .error e => .error (.apiError ("Failed to retrieve papers from OpenAlex: " ++ e))

end OpenAlexService

/-! ## `views.py` — the HTTP search handler -/

/-- The query parameters of one `GET /api/search/` request
(`views.py:69-72`): each is `some` raw string when present in the query
string, `none` when absent. -/
structure Request where
  q : Option String
  mode : Option String
  per_page : Option String
  oa_status : Option String

/-- The argument list the handler hands to
`openalex_service.search_papers` (`views.py:101-106`): `page` and
`exclude_retracted` are not passed and therefore sit at the client defaults
`1` and `True`. -/
structure ClientArgs where
  query : String
  per_page : Int
  page : Int
  exclude_retracted : Bool
  open_access_only : Bool
  oa_status : Option String
deriving DecidableEq

/-- Outcome of the handler's own validation steps (`views.py:69-96`): an
early `400` or the call into the client. -/
inductive HandlerStep where
  | reject (msg : String)
  | call (args : ClientArgs)
deriving DecidableEq

/-- The handler's JSON responses: `200` with papers/count/mode/query
(`views.py:127-134`), `400` and `502` with an `error` message
(`views.py:74-108`). -/
inductive HttpResponse where
  | ok200 (papers : List Metadata) (count : Nat) (mode : String) (query : String)
  | badRequest (error : String)
  | badGateway (error : String)

/-- HTTP status code of a response. -/
def HttpResponse.status : HttpResponse → Nat
  | .ok200 .. => 200
  | .badRequest _ => 400
  | .badGateway _ => 502

/-- The valid ranking modes (`views.py:77`). -/
def validModes : List String := ["relevance", "open_access", "best_match"]

/-- The message of the invalid-mode `400` (`views.py:79-83`):
`', '.join(sorted(valid_modes))` lists the modes alphabetically. -/
def invalidModeMsg (mode : String) : String :=
  "Invalid mode '" ++ mode ++ "'. Must be one of: best_match, open_access, relevance"

/-- Steps 1-4 of the handler (`views.py:69-97`): trim and check `q`, check
`mode`, silently clamp `per_page` to 25 when unparsable or out of `[1, 50]`,
translate the mode to `open_access_only`, and forward `oa_status` verbatim. -/
def handlerParams (req : Request) : HandlerStep :=
  let query := pyStrip (req.q.getD "")
  let mode := pyStrip (req.mode.getD "relevance")
  let per_page_raw := req.per_page.getD "25"
  if query = "" then
    .reject "Query parameter 'q' is required."
  else if mode ∉ validModes then
    .reject (invalidModeMsg mode)
  else
    let per_page : Int :=
      match pyIntParse per_page_raw with
      | some n => if n < 1 ∨ n > 50 then 25 else n
      | none => 25
    .call
      { query := query
        per_page := per_page
        page := 1
        exclude_retracted := true
        open_access_only := decide (mode = "open_access")
        oa_status := req.oa_status }

/-- The `search` view (`views.py:40-134`), parameterised by the client call.
`ValueError` maps to `400` and `OpenAlexAPIError` to `502`
(`views.py:107-111`); each raw record is normalized in order
(`views.py:114`), and an exception escaping `extract_metadata` propagates
out of the view (it is not caught there).  The best-effort `QueryLog` write
(`views.py:117-123`) swallows its own failures and cannot influence the
response, so it is not modelled. -/
def searchView (client : ClientArgs → Except SearchErr (List JVal))
    (req : Request) : Except String HttpResponse :=
  match handlerParams req with
  | .reject msg => .ok (.badRequest msg)
  | .call args =>
    match client args with
    | .error (.invalidArgument msg) => .ok (.badRequest msg)
    | .error (.apiError msg) => .ok (.badGateway msg)
    | .ok raw_results => do
      let papers ← mapE ExtractionService.extract_metadata raw_results
      pure (.ok200 papers papers.length (pyStrip (req.mode.getD "relevance"))
        (pyStrip (req.q.getD "")))

/-- The deployed composition: the view calling
`OpenAlexService.search_papers` over a given provider oracle. -/
def searchEndpoint (provider : ProviderRequest → Except String (List JVal))
    (req : Request) : Except String HttpResponse :=
  searchView
    (fun a => OpenAlexService.search_papers provider a.query a.per_page a.page
      a.exclude_retracted a.open_access_only a.oa_status)
    req

/-! ## Specification-side characterizations -/

/-- Record `word` at position `p` in the specification's temporary
position-to-word mapping, overwriting any earlier word at `p`. -/
def specRecord (m : List (Int × String)) (p : Int) (w : String) : List (Int × String) :=
  if m.any (fun kv => kv.1 == p) then
    m.map (fun kv => if kv.1 == p then (p, w) else kv)
  else m ++ [(p, w)]

/-- Lookup in the specification's position-to-word mapping. -/
def specGet (m : List (Int × String)) (p : Int) : Option String :=
  (m.find? (fun kv => kv.1 == p)).map (·.2)

/-- The specification's temporary mapping: for every `(word, positions)` pair
in order, record the word at every listed position. -/
def specBuild (entries : List (String × List Int)) : List (Int × String) :=
  entries.foldl (fun m e => e.2.foldl (fun m p => specRecord m p e.1) m) []

/-- Abstract reconstruction as the specification words it: build the
position-to-word mapping, then emit the words in increasing position order,
joined by single spaces. -/
def reconstructSpec (entries : List (String × List Int)) : String :=
  let m := specBuild entries
  joinSpace ((((m.map (·.1)).insertionSort (· ≤ ·))).map fun p => (specGet m p).getD "")

/-- Encode a word-to-positions table as the JSON value the provider sends. -/
def encodeInv (entries : List (String × List Int)) : JVal :=
  .obj (entries.map fun e => (e.1, .arr (e.2.map JVal.int)))

/-- The author record the specification predicts for one authorship entry:
display name (empty string when absent), ORCID passed through `or ""`, and
the institution display names in order. -/
def authorOf (e : JVal) : Author :=
  let author := (jget e "author").getD (.obj [])
  let institutions :=
    match (jget e "institutions").getD (.arr []) with
    | .arr is => is.map fun i => (jget i "display_name").getD .null
    | _ => []
  { name := (jget author "display_name").getD (.str "")
    orcid := pyOr ((jget author "orcid").getD .null) (.str "")
    institutions := institutions }

/-- The concept record the specification predicts for one provider concept
entry. -/
def conceptOf (x : JVal) : PaperConcept :=
  { name := (jget x "display_name").getD .null
    score := (jget x "score").getD .null }

/-- Well-formedness of one authorship entry: a dict whose `author`, when
present, is a dict and whose `institutions`, when present, is a list of
dicts. -/
def authorshipWF : JVal → Bool
  | .obj fs =>
    (match jlookup fs "author" with
     | none => true
     | some (.obj _) => true
     | some _ => false) &&
    (match jlookup fs "institutions" with
     | none => true
     | some (.arr is) => is.all JVal.isDict
     | some _ => false)
  | _ => false

/-- Well-formedness of the `authorships` field: absent, or a list of
well-formed authorship entries. -/
def wfAuthorships : Option JVal → Bool
  | none => true
  | some (.arr es) => es.all authorshipWF
  | some _ => false

/-- Well-formedness of the `abstract_inverted_index` field: any non-dict
value is tolerated by the source (it yields `""`); a dict must keep only
integers in its list-valued entries so that the positions sort. -/
def wfInverted : Option JVal → Bool
  | none => true
  | some (.obj entries) =>
    entries.all fun e =>
      match e.2 with
      | .arr ps => ps.all fun p => match p with | .int _ => true | _ => false
      | _ => true
  | some _ => true

/-- Well-formedness of the `concepts` field: absent, or a list whose first
five entries are dicts. -/
def wfConcepts : Option JVal → Bool
  | none => true
  | some (.arr xs) => (xs.take 5).all JVal.isDict
  | some _ => false

/-- Well-formedness of the `primary_location` field: absent or falsy, or a
dict whose `source`, when truthy, is a dict. -/
def wfPrimaryLocation : Option JVal → Bool
  | none => true
  | some v =>
    if pyTruthy v then
      match v with
      | .obj fs =>
        (match jlookup fs "source" with
         | none => true
         | some sv => if pyTruthy sv then sv.isDict else true)
      | _ => false
    else true

/-- Well-formedness of the `open_access` field: absent or a dict (a
present-but-`None` value raises). -/
def wfOpenAccess : Option JVal → Bool
  | none => true
  | some (.obj _) => true
  | some _ => false

/-- Well-formedness of the `best_oa_location` field: absent, falsy, or a
dict. -/
def wfBestOA : Option JVal → Bool
  | none => true
  | some v => !pyTruthy v || v.isDict

/-- A raw work record on which every optional field that is present has the
shape the normalizer dereferences without raising. -/
def wellFormedWork (work : JVal) : Bool :=
  work.isDict &&
  wfAuthorships (jget work "authorships") &&
  wfInverted (jget work "abstract_inverted_index") &&
  wfConcepts (jget work "concepts") &&
  wfPrimaryLocation (jget work "primary_location") &&
  wfOpenAccess (jget work "open_access") &&
  wfBestOA (jget work "best_oa_location")

/-- The all-defaults normalized record documented for a work carrying none of
the optional fields. -/
def defaultMetadata : Metadata :=
  { openalex_id := .str ""
    title := .str ""
    authors := []
    abstract := ""
    publication_year := .null
    doi := .str ""
    cited_by_count := .int 0
    concepts := []
    source := .null
    is_open_access := .bool false
    oa_status := .null
    full_text_url := .null }

/-- Inject an integer-keyed mapping entry into the code's JVal-keyed form. -/
def liftPW (kv : Int × String) : JVal × String := (.int kv.1, kv.2)

/-- Every key of the position dict built from all-integer position lists is
an integer. -/
def intKeyed (d : List (JVal × String)) : Prop :=
  ∀ kv ∈ d, ∃ n : Int, kv.1 = JVal.int n

/-- The inputs `search_papers` rejects with `ValueError` before building any
request (`openalex_service.py:60-70`). -/
def invalidSearchArgs (query : String) (per_page page : Int)
    (oa_status : Option String) : Prop :=
  query = "" ∨ pyStrip query = "" ∨ per_page < 1 ∨ per_page > 200 ∨ page < 1
    ∨ ∃ s, oa_status = some s ∧ s ∉ validOaStatuses

/-! ## Helper lemmas -/

theorem exc_ok_bind (a : α) (f : α → Except String β) :
    (Except.ok a >>= f) = f a := rfl

theorem exc_err_bind (e : String) (f : α → Except String β) :
    ((Except.error e : Except String α) >>= f) = Except.error e := rfl

theorem mapE_ok_of_forall (f : α → Except String β) (g : α → β) :
    ∀ l : List α, (∀ x ∈ l, f x = .ok (g x)) → mapE f l = .ok (l.map g)
  | [], _ => rfl
  | x :: xs, h => by
    have hx := h x (List.mem_cons_self x xs)
    have hxs := mapE_ok_of_forall f g xs (fun y hy => h y (List.mem_cons_of_mem x hy))
    simp [mapE, hx, hxs, exc_ok_bind]

theorem mapE_ok_length (f : α → Except String β) :
    ∀ (l : List α) (ys : List β), mapE f l = .ok ys → ys.length = l.length := by
  intro l
  induction l with
  | nil => intro ys h; simp [mapE] at h; simp [← h]
  | cons x xs ih =>
    intro ys h
    simp only [mapE] at h
    cases hx : f x with
    | error e => rw [hx, exc_err_bind] at h; exact absurd h (by simp)
    | ok y =>
      rw [hx, exc_ok_bind] at h
      cases hxs : mapE f xs with
      | error e => rw [hxs, exc_err_bind] at h; exact absurd h (by simp)
      | ok ys' =>
        rw [hxs, exc_ok_bind] at h
        have : y :: ys' = ys := Except.ok.inj h
        subst this
        simp [ih ys' hxs]

theorem stripList_eq_rdrop (l : List Char) :
    stripList l = (l.dropWhile pyWs).rdropWhile pyWs := rfl

theorem length_dropWhile_le' (p : α → Bool) (l : List α) :
    (l.dropWhile p).length ≤ l.length := by
  induction l with
  | nil => simp
  | cons a t ih =>
    by_cases hp : p a = true
    · rw [List.dropWhile_cons_of_pos hp]; simp; omega
    · simp at hp; simp [List.dropWhile_cons, hp]

theorem dropWhile_self_dropWhile (p : α → Bool) (l : List α) :
    (l.dropWhile p).dropWhile p = l.dropWhile p := by
  rw [List.dropWhile_eq_self_iff]
  intro hl
  exact List.dropWhile_get_zero_not p l hl

theorem dropWhile_eq_self_of_pre (p : α → Bool) (X m : List α)
    (hpre : X <+: m) (hm : m.dropWhile p = m) : X.dropWhile p = X := by
  cases X with
  | nil => simp
  | cons x xs =>
    obtain ⟨t, ht⟩ := hpre
    subst ht
    by_cases hp : p x = true
    · rw [List.cons_append, List.dropWhile_cons_of_pos hp] at hm
      have hle := length_dropWhile_le' p (xs ++ t)
      have := congrArg List.length hm
      simp only [List.length_cons] at this
      omega
    · simp at hp
      simp [List.dropWhile_cons, hp]

theorem stripList_idem (l : List Char) : stripList (stripList l) = stripList l := by
  rw [stripList_eq_rdrop, stripList_eq_rdrop]
  have h1 : ((l.dropWhile pyWs).rdropWhile pyWs).dropWhile pyWs
      = (l.dropWhile pyWs).rdropWhile pyWs :=
    dropWhile_eq_self_of_pre pyWs _ _ (List.rdropWhile_prefix pyWs (l.dropWhile pyWs))
      (dropWhile_self_dropWhile pyWs l)
  rw [h1]
  rw [List.rdropWhile_eq_self_iff]
  intro hne
  exact List.rdropWhile_last_not pyWs _ hne

theorem pyStrip_idem (s : String) : pyStrip (pyStrip s) = pyStrip s := by
  unfold pyStrip
  exact congrArg String.mk (stripList_idem s.data)

/-! ## Bridging the code's position dict (JVal keys) with the spec's (Int keys) -/

theorem jvalEq_int (a b : Int) : jvalEq (.int a) (.int b) = (a == b) := rfl

theorem dictInsert_lift (m : List (Int × String)) (p : Int) (w : String) :
    dictInsert (m.map liftPW) (.int p) w = (specRecord m p w).map liftPW := by
  unfold dictInsert specRecord
  have hany : ∀ t : List (Int × String),
      (t.map liftPW).any (fun kv => jvalEq kv.1 (.int p))
        = t.any (fun kv => kv.1 == p) := by
    intro t
    induction t with
    | nil => rfl
    | cons kv t ih => simp [liftPW, jvalEq_int, ih]
  rw [hany]
  by_cases h : m.any (fun kv => kv.1 == p) = true
  · simp only [h, if_true]
    rw [List.map_map, List.map_map]
    apply List.map_congr_left
    intro kv _
    have hjv : jvalEq (JVal.int kv.1) (JVal.int p) = (kv.1 == p) := rfl
    by_cases hk : (kv.1 == p) = true
    · simp [Function.comp, liftPW, hjv, hk]
    · have hk' : (kv.1 == p) = false := by
        cases hb : (kv.1 == p) with
        | true => exact absurd hb hk
        | false => rfl
      simp [Function.comp, liftPW, hjv, hk']
  · have h' : m.any (fun kv => kv.1 == p) = false := by
      cases hb : m.any (fun kv => kv.1 == p) with
      | true => exact absurd hb h
      | false => rfl
    simp [h', liftPW]

theorem insertFold_lift (w : String) (qs : List Int) :
    ∀ m : List (Int × String),
      (qs.map JVal.int).foldl (fun d p => dictInsert d p w) (m.map liftPW)
        = (qs.foldl (fun m p => specRecord m p w) m).map liftPW := by
  induction qs with
  | nil => intro m; rfl
  | cons q qs ih =>
    intro m
    simp only [List.map_cons, List.foldl_cons]
    rw [dictInsert_lift]
    exact ih (specRecord m q w)

theorem buildWords_lift (entries : List (String × List Int)) :
    buildWords (entries.map fun e => (e.1, JVal.arr (e.2.map JVal.int)))
      = (specBuild entries).map liftPW := by
  unfold buildWords specBuild
  suffices h : ∀ m : List (Int × String),
      (entries.map fun e => (e.1, JVal.arr (e.2.map JVal.int))).foldl
          (fun d wv =>
            match wv.2 with
            | .arr ps => ps.foldl (fun d p => dictInsert d p wv.1) d
            | _ => d)
          (m.map liftPW)
        = (entries.foldl (fun m e => e.2.foldl (fun m p => specRecord m p e.1) m) m).map liftPW by
    simpa using h []
  induction entries with
  | nil => intro m; rfl
  | cons e es ih =>
    intro m
    simp only [List.map_cons, List.foldl_cons]
    rw [insertFold_lift]
    exact ih _

theorem asInts_map_int : ∀ l : List Int, asInts (l.map JVal.int) = some l
  | [] => rfl
  | n :: l => by simp [asInts, asInts_map_int l]

theorem sortedKeys_int (l : List Int) :
    sortedKeys (l.map JVal.int) = .ok ((l.insertionSort (· ≤ ·)).map JVal.int) := by
  unfold sortedKeys
  rw [asInts_map_int]

theorem bool_eq_false {b : Bool} (h : ¬ b = true) : b = false := by
  cases b with
  | true => exact absurd rfl h
  | false => rfl

theorem dictGet_lift (m : List (Int × String)) (p : Int) :
    dictGet (m.map liftPW) (.int p) = specGet m p := by
  unfold dictGet specGet
  have hfind : ∀ t : List (Int × String),
      (t.map liftPW).find? (fun kv => jvalEq kv.1 (.int p))
        = (t.find? (fun kv => kv.1 == p)).map liftPW := by
    intro t
    induction t with
    | nil => rfl
    | cons kv t ih =>
      by_cases hk : (kv.1 == p) = true
      · simp [List.find?_cons, liftPW, jvalEq_int, hk]
      · have hk' : (kv.1 == p) = false := bool_eq_false hk
        simp [List.find?_cons, liftPW, jvalEq_int, hk', ih]
  rw [hfind]
  cases m.find? (fun kv => kv.1 == p) with
  | none => rfl
  | some kv => rfl

theorem keys_lift (m : List (Int × String)) :
    (m.map liftPW).map (·.1) = (m.map (·.1)).map JVal.int := by
  simp only [List.map_map]
  rfl

theorem pyGet_obj (fs : List (String × JVal)) (k : String) :
    pyGet (.obj fs) k = .ok (jlookup fs k) := rfl

theorem reconstruct_code_eq_spec (fs : List (String × JVal))
    (entries : List (String × List Int))
    (h : jlookup fs "abstract_inverted_index" = some (encodeInv entries)) :
    ExtractionService.reconstruct_abstract (.obj fs) = .ok (reconstructSpec entries) := by
  unfold ExtractionService.reconstruct_abstract
  rw [pyGet_obj, h, exc_ok_bind]
  cases entries with
  | nil => rfl
  | cons e es =>
    have hTrue : (!pyTruthy (encodeInv (e :: es)) || !(encodeInv (e :: es)).isDict) = false := by
      simp [encodeInv, pyTruthy, JVal.isDict]
    simp only [Option.getD_some, hTrue, Bool.false_eq_true, if_false, encodeInv]
    rw [buildWords_lift, keys_lift, sortedKeys_int, exc_ok_bind]
    have hmap :
        ((((specBuild (e :: es)).map (·.1)).insertionSort (· ≤ ·)).map JVal.int).map
            (fun k => (dictGet ((specBuild (e :: es)).map liftPW) k).getD "")
          = (((specBuild (e :: es)).map (·.1)).insertionSort (· ≤ ·)).map
            (fun p => (specGet (specBuild (e :: es)) p).getD "") := by
      rw [List.map_map]
      apply List.map_congr_left
      intro p _
      simp [Function.comp, dictGet_lift]
    rw [hmap]
    rfl

theorem specRecord_keys (m : List (Int × String)) (p : Int) (w : String) :
    (specRecord m p w).map (·.1)
      = if m.any (fun kv => kv.1 == p) then m.map (·.1) else m.map (·.1) ++ [p] := by
  unfold specRecord
  by_cases h : m.any (fun kv => kv.1 == p) = true
  · simp only [h, if_true]
    rw [List.map_map]
    apply List.map_congr_left
    intro kv _
    by_cases hk : (kv.1 == p) = true
    · simp [Function.comp, hk, (eq_of_beq hk).symm]
    · simp [Function.comp, bool_eq_false hk]
  · have h' := bool_eq_false h
    simp [h']

theorem specRecord_keys_nodup (m : List (Int × String)) (p : Int) (w : String)
    (h : (m.map (·.1)).Nodup) : ((specRecord m p w).map (·.1)).Nodup := by
  rw [specRecord_keys]
  by_cases hc : m.any (fun kv => kv.1 == p) = true
  · simpa [hc] using h
  · have hc' := bool_eq_false hc
    have hnp : p ∉ m.map (·.1) := by
      intro hmem
      obtain ⟨kv, hkv, hkve⟩ := List.mem_map.mp hmem
      have := List.any_eq_false.mp hc' kv hkv
      simp [hkve] at this
    simp [hc', List.nodup_append, h, hnp]

theorem innerFold_keys_nodup (w : String) (qs : List Int) :
    ∀ m : List (Int × String), (m.map (·.1)).Nodup →
      ((qs.foldl (fun m p => specRecord m p w) m).map (·.1)).Nodup := by
  induction qs with
  | nil => intro m h; exact h
  | cons q qs ih =>
    intro m h
    exact ih (specRecord m q w) (specRecord_keys_nodup m q w h)

theorem specBuild_keys_nodup (entries : List (String × List Int)) :
    ((specBuild entries).map (·.1)).Nodup := by
  unfold specBuild
  suffices h : ∀ m : List (Int × String), (m.map (·.1)).Nodup →
      ((entries.foldl (fun m e => e.2.foldl (fun m p => specRecord m p e.1) m) m).map (·.1)).Nodup from
    h [] (by simp)
  induction entries with
  | nil => intro m h; exact h
  | cons e es ih =>
    intro m h
    exact ih _ (innerFold_keys_nodup e.1 e.2 m h)

theorem specPositions_strictSorted (entries : List (String × List Int)) :
    (((specBuild entries).map (·.1)).insertionSort (· ≤ ·)).Sorted (· < ·) := by
  have hs : (((specBuild entries).map (·.1)).insertionSort (· ≤ ·)).Sorted (· ≤ ·) :=
    List.sorted_insertionSort _ _
  have hn : (((specBuild entries).map (·.1)).insertionSort (· ≤ ·)).Nodup :=
    (List.Perm.nodup_iff (List.perm_insertionSort _ _)).mpr (specBuild_keys_nodup entries)
  exact hs.lt_of_le hn

/-- C2: abstract reconstruction agrees with the specification's algorithm —
for every inverted index (a word-to-integer-positions mapping) the code
yields exactly the spec-side reconstruction (build a position-to-word map
with later writes overwriting earlier ones at the same position, then emit
the words over the sorted positions joined by single spaces), and the
emitted position order is strictly increasing; an absent, non-dict or empty
inverted-index field yields `""`; and `{"a": [0], "b": [1]}` yields
`"a b"`. -/
theorem C2_abstract_reconstruction :
    (∀ (fs : List (String × JVal)) (entries : List (String × List Int)),
        jlookup fs "abstract_inverted_index" = some (encodeInv entries) →
        ExtractionService.reconstruct_abstract (.obj fs) = .ok (reconstructSpec entries)
          ∧ (((specBuild entries).map (·.1)).insertionSort (· ≤ ·)).Sorted (· < ·))
    ∧ (∀ fs, jlookup fs "abstract_inverted_index" = none →
        ExtractionService.reconstruct_abstract (.obj fs) = .ok "")
    ∧ (∀ fs v, jlookup fs "abstract_inverted_index" = some v → v.isDict = false →
        ExtractionService.reconstruct_abstract (.obj fs) = .ok "")
    ∧ (∀ fs, jlookup fs "abstract_inverted_index" = some (.obj []) →
        ExtractionService.reconstruct_abstract (.obj fs) = .ok "")
    ∧ ExtractionService.reconstruct_abstract
        (.obj [("abstract_inverted_index",
          .obj [("a", .arr [.int 0]), ("b", .arr [.int 1])])]) = .ok "a b" := by
  refine ⟨?_, ?_, ?_, ?_, ?_⟩
  · intro fs entries h
    exact ⟨reconstruct_code_eq_spec fs entries h, specPositions_strictSorted entries⟩
  · intro fs h
    unfold ExtractionService.reconstruct_abstract
    rw [pyGet_obj, h, exc_ok_bind]
    rfl
  · intro fs v h hv
    unfold ExtractionService.reconstruct_abstract
    rw [pyGet_obj, h, exc_ok_bind]
    simp only [Option.getD_some, hv, Bool.not_false, Bool.or_true, if_true]
    rfl
  · intro fs h
    unfold ExtractionService.reconstruct_abstract
    rw [pyGet_obj, h, exc_ok_bind]
    rfl
  · rfl

theorem C2_abstract_reconstruction_witness :
    (ExtractionService.reconstruct_abstract
        (.obj [("abstract_inverted_index", encodeInv [("b", [1]), ("a", [0])])])
      = .ok (reconstructSpec [("b", [1]), ("a", [0])]))
    ∧ ExtractionService.reconstruct_abstract (.obj [("title", .str "t")]) = .ok "" :=
  ⟨(C2_abstract_reconstruction.1 [("abstract_inverted_index", encodeInv [("b", [1]), ("a", [0])])]
      [("b", [1]), ("a", [0])] (by rfl)).1,
   C2_abstract_reconstruction.2.1 [("title", .str "t")] (by rfl)⟩

theorem pyGetD_obj (fs : List (String × JVal)) (k : String) (d : JVal) :
    pyGetD (.obj fs) k d = .ok ((jlookup fs k).getD d) := rfl

theorem pySlice5_len (c : JVal) (ys : List JVal) (h : pySlice5 c = .ok ys) :
    ys.length ≤ 5 := by
  cases c with
  | arr xs =>
    have : xs.take 5 = ys := Except.ok.inj h
    subst this
    simp [List.length_take]
  | str s =>
    have : (s.toList.take 5).map (fun ch => JVal.str (String.singleton ch)) = ys :=
      Except.ok.inj h
    subst this
    simp [List.length_take]
  | null => exact absurd h (by simp [pySlice5])
  | bool b => exact absurd h (by simp [pySlice5])
  | int n => exact absurd h (by simp [pySlice5])
  | obj fs => exact absurd h (by simp [pySlice5])

theorem extract_concepts_eq (fs : List (String × JVal)) (xs : List JVal)
    (h : jlookup fs "concepts" = some (.arr xs))
    (hwf : ∀ x ∈ xs.take 5, x.isDict = true) :
    ExtractionService.extract_concepts (.obj fs) = .ok ((xs.take 5).map conceptOf) := by
  unfold ExtractionService.extract_concepts
  rw [pyGetD_obj, h, exc_ok_bind]
  show (pySlice5 (.arr xs) >>= _) = _
  rw [show pySlice5 (.arr xs) = .ok (xs.take 5) from rfl, exc_ok_bind]
  apply mapE_ok_of_forall
  intro x hx
  have hd := hwf x hx
  cases x with
  | obj xfs => rfl
  | null => exact absurd hd (by simp [JVal.isDict])
  | bool b => exact absurd hd (by simp [JVal.isDict])
  | int n => exact absurd hd (by simp [JVal.isDict])
  | str s => exact absurd hd (by simp [JVal.isDict])
  | arr l => exact absurd hd (by simp [JVal.isDict])

/-- C5: concept extraction returns exactly the first `min(n, 5)` provider
concepts in provider order, each mapped to its name and score, and whenever
it returns at all the result has at most five entries. -/
theorem C5_concept_extraction :
    (∀ (fs : List (String × JVal)) (xs : List JVal),
        jlookup fs "concepts" = some (.arr xs) →
        (∀ x ∈ xs.take 5, x.isDict = true) →
        ExtractionService.extract_concepts (.obj fs) = .ok ((xs.take 5).map conceptOf)
          ∧ ((xs.take 5).map conceptOf).length = min xs.length 5)
    ∧ (∀ (w : JVal) (cs : List PaperConcept),
        ExtractionService.extract_concepts w = .ok cs → cs.length ≤ 5) := by
  constructor
  · intro fs xs h hwf
    exact ⟨extract_concepts_eq fs xs h hwf, by simp [List.length_take, Nat.min_comm]⟩
  · intro w cs h
    cases w with
    | obj fs =>
      unfold ExtractionService.extract_concepts at h
      rw [pyGetD_obj, exc_ok_bind] at h
      cases hs : pySlice5 ((jlookup fs "concepts").getD (.arr [])) with
      | error e => rw [hs, exc_err_bind] at h; exact absurd h (by simp)
      | ok ys =>
        rw [hs, exc_ok_bind] at h
        have := mapE_ok_length _ ys cs h
        have := pySlice5_len _ ys hs
        omega
    | null => exact absurd h (by simp [ExtractionService.extract_concepts, pyGetD, exc_err_bind])
    | bool b => exact absurd h (by simp [ExtractionService.extract_concepts, pyGetD, exc_err_bind])
    | int n => exact absurd h (by simp [ExtractionService.extract_concepts, pyGetD, exc_err_bind])
    | str s => exact absurd h (by simp [ExtractionService.extract_concepts, pyGetD, exc_err_bind])
    | arr l => exact absurd h (by simp [ExtractionService.extract_concepts, pyGetD, exc_err_bind])

theorem C5_concept_extraction_witness :
    (ExtractionService.extract_concepts
        (.obj [("concepts", .arr [.obj [("display_name", .str "A"), ("score", .int 9)],
          .obj [("display_name", .str "B"), ("score", .int 8)],
          .obj [("display_name", .str "C"), ("score", .int 7)],
          .obj [("display_name", .str "D"), ("score", .int 6)],
          .obj [("display_name", .str "E"), ("score", .int 5)],
          .obj [("display_name", .str "F"), ("score", .int 4)]])])
      = .ok (([.obj [("display_name", .str "A"), ("score", .int 9)],
          .obj [("display_name", .str "B"), ("score", .int 8)],
          .obj [("display_name", .str "C"), ("score", .int 7)],
          .obj [("display_name", .str "D"), ("score", .int 6)],
          .obj [("display_name", .str "E"), ("score", .int 5)],
          .obj [("display_name", .str "F"), ("score", .int 4)]].take 5).map conceptOf))
    ∧ (([(.obj [("display_name", .str "A"), ("score", .int 9)] : JVal),
          .obj [("display_name", .str "B"), ("score", .int 8)],
          .obj [("display_name", .str "C"), ("score", .int 7)],
          .obj [("display_name", .str "D"), ("score", .int 6)],
          .obj [("display_name", .str "E"), ("score", .int 5)],
          .obj [("display_name", .str "F"), ("score", .int 4)]].take 5).map conceptOf).length
        = min 6 5 :=
  (C5_concept_extraction.1 [("concepts", .arr [.obj [("display_name", .str "A"), ("score", .int 9)],
      .obj [("display_name", .str "B"), ("score", .int 8)],
      .obj [("display_name", .str "C"), ("score", .int 7)],
      .obj [("display_name", .str "D"), ("score", .int 6)],
      .obj [("display_name", .str "E"), ("score", .int 5)],
      .obj [("display_name", .str "F"), ("score", .int 4)]])]
    [.obj [("display_name", .str "A"), ("score", .int 9)],
      .obj [("display_name", .str "B"), ("score", .int 8)],
      .obj [("display_name", .str "C"), ("score", .int 7)],
      .obj [("display_name", .str "D"), ("score", .int 6)],
      .obj [("display_name", .str "E"), ("score", .int 5)],
      .obj [("display_name", .str "F"), ("score", .int 4)]] (by rfl) (by decide))

theorem authorOf_orcid_ne_null (e : JVal) : (authorOf e).orcid ≠ JVal.null := by
  unfold authorOf pyOr
  by_cases h : pyTruthy ((jget ((jget e "author").getD (.obj [])) "orcid").getD .null) = true
  · simp only [h, if_true]
    intro hnull
    rw [hnull] at h
    simp [pyTruthy] at h
  · have h' := bool_eq_false h
    simp [h']

theorem extract_authors_eq (fs : List (String × JVal)) (entries : List JVal)
    (h : jlookup fs "authorships" = some (.arr entries))
    (hwf : ∀ e ∈ entries, authorshipWF e = true) :
    ExtractionService.extract_authors (.obj fs) = .ok (entries.map authorOf) := by
  unfold ExtractionService.extract_authors
  rw [pyGetD_obj, h, exc_ok_bind]
  show (pyIter (.arr entries) >>= _) = _
  rw [show pyIter (.arr entries) = .ok entries from rfl, exc_ok_bind]
  apply mapE_ok_of_forall
  intro e he
  have hw := hwf e he
  cases e with
  | null => exact absurd hw (by simp [authorshipWF])
  | bool b => exact absurd hw (by simp [authorshipWF])
  | int n => exact absurd hw (by simp [authorshipWF])
  | str s => exact absurd hw (by simp [authorshipWF])
  | arr l => exact absurd hw (by simp [authorshipWF])
  | obj efs =>
    simp only [authorshipWF, Bool.and_eq_true] at hw
    obtain ⟨hwa, hwi⟩ := hw
    rw [pyGetD_obj, exc_ok_bind, pyGetD_obj, exc_ok_bind]
    have hinst :
        ∀ is : List JVal, (∀ i ∈ is, i.isDict = true) →
          mapE (fun inst => do pure ((← pyGet inst "display_name").getD .null)) is
            = .ok (is.map fun i => (jget i "display_name").getD .null) := by
      intro is his
      apply mapE_ok_of_forall
      intro i hi
      have hd := his i hi
      cases i with
      | obj ifs => rfl
      | null => exact absurd hd (by simp [JVal.isDict])
      | bool b => exact absurd hd (by simp [JVal.isDict])
      | int n => exact absurd hd (by simp [JVal.isDict])
      | str s => exact absurd hd (by simp [JVal.isDict])
      | arr l => exact absurd hd (by simp [JVal.isDict])
    cases hi : jlookup efs "institutions" with
    | none =>
      simp only [Option.getD_none]
      rw [show pyIter (.arr []) = .ok ([] : List JVal) from rfl, exc_ok_bind,
        show mapE (fun inst => do pure ((← pyGet inst "display_name").getD .null)) ([] : List JVal)
          = .ok [] from rfl, exc_ok_bind]
      cases ha : jlookup efs "author" with
      | none =>
        simp only [Option.getD_none]
        simp [authorOf, jget, ha, hi, pyGetD_obj, pyGet_obj]
        rfl
      | some av =>
        rw [ha] at hwa
        cases av with
        | obj afs =>
          simp only [Option.getD_some]
          rw [pyGetD_obj, exc_ok_bind, pyGet_obj, exc_ok_bind]
          simp [authorOf, jget, ha, hi]
          rfl
        | null => exact absurd hwa (by simp)
        | bool b => exact absurd hwa (by simp)
        | int n => exact absurd hwa (by simp)
        | str s => exact absurd hwa (by simp)
        | arr l => exact absurd hwa (by simp)
    | some iv =>
      rw [hi] at hwi
      cases iv with
      | arr is =>
        simp only [Option.getD_some]
        rw [show pyIter (.arr is) = .ok is from rfl, exc_ok_bind]
        rw [hinst is (by simpa [List.all_eq_true] using hwi), exc_ok_bind]
        cases ha : jlookup efs "author" with
        | none =>
          simp only [Option.getD_none]
          simp [authorOf, jget, ha, hi, pyGetD_obj, pyGet_obj]
          rfl
        | some av =>
          rw [ha] at hwa
          cases av with
          | obj afs =>
            simp only [Option.getD_some]
            rw [pyGetD_obj, exc_ok_bind, pyGet_obj, exc_ok_bind]
            simp [authorOf, jget, ha, hi]
            rfl
          | null => exact absurd hwa (by simp)
          | bool b => exact absurd hwa (by simp)
          | int n => exact absurd hwa (by simp)
          | str s => exact absurd hwa (by simp)
          | arr l => exact absurd hwa (by simp)
      | null => exact absurd hwi (by simp)
      | bool b => exact absurd hwi (by simp)
      | int n => exact absurd hwi (by simp)
      | str s => exact absurd hwi (by simp)
      | obj ofs => exact absurd hwi (by simp)

/-- C6: author extraction emits exactly one record per authorship entry, in
input order, with the display name defaulting to `""`, the ORCID passed
through `or ""` (so it is never the literal `None`), and the ordered list of
institution display names. -/
theorem C6_author_extraction :
    ∀ (fs : List (String × JVal)) (entries : List JVal),
      jlookup fs "authorships" = some (.arr entries) →
      (∀ e ∈ entries, authorshipWF e = true) →
      ExtractionService.extract_authors (.obj fs) = .ok (entries.map authorOf)
        ∧ (entries.map authorOf).length = entries.length
        ∧ ∀ a ∈ entries.map authorOf, a.orcid ≠ JVal.null := by
  intro fs entries h hwf
  refine ⟨extract_authors_eq fs entries h hwf, by simp, ?_⟩
  intro a ha
  obtain ⟨e, _, hae⟩ := List.mem_map.mp ha
  rw [← hae]
  exact authorOf_orcid_ne_null e

theorem C6_author_extraction_witness :
    ExtractionService.extract_authors
        (.obj [("authorships", .arr
          [.obj [("author", .obj [("display_name", .str "John Doe"), ("orcid", .str "0000-0001")]),
             ("institutions", .arr [.obj [("display_name", .str "University A")]])],
           .obj [("author", .obj [("display_name", .str "Jane Smith"), ("orcid", JVal.null)])]])])
      = .ok ([(.obj [("author", .obj [("display_name", .str "John Doe"), ("orcid", .str "0000-0001")]),
             ("institutions", .arr [.obj [("display_name", .str "University A")]])] : JVal),
           .obj [("author", .obj [("display_name", .str "Jane Smith"), ("orcid", JVal.null)])]].map authorOf) :=
  (C6_author_extraction
    [("authorships", .arr
      [.obj [("author", .obj [("display_name", .str "John Doe"), ("orcid", .str "0000-0001")]),
         ("institutions", .arr [.obj [("display_name", .str "University A")]])],
       .obj [("author", .obj [("display_name", .str "Jane Smith"), ("orcid", JVal.null)])]])]
    [.obj [("author", .obj [("display_name", .str "John Doe"), ("orcid", .str "0000-0001")]),
       ("institutions", .arr [.obj [("display_name", .str "University A")]])],
     .obj [("author", .obj [("display_name", .str "Jane Smith"), ("orcid", JVal.null)])]]
    (by rfl) (by decide)).1

theorem pyGetD_ok_of_dict (v : JVal) (hv : v.isDict = true) (k : String) (d : JVal) :
    ∃ r, pyGetD v k d = .ok r := by
  cases v with
  | obj fs => exact ⟨_, rfl⟩
  | null => simp [JVal.isDict] at hv
  | bool b => simp [JVal.isDict] at hv
  | int n => simp [JVal.isDict] at hv
  | str s => simp [JVal.isDict] at hv
  | arr l => simp [JVal.isDict] at hv

theorem pyGet_ok_of_dict (v : JVal) (hv : v.isDict = true) (k : String) :
    ∃ r, pyGet v k = .ok r := by
  cases v with
  | obj fs => exact ⟨_, rfl⟩
  | null => simp [JVal.isDict] at hv
  | bool b => simp [JVal.isDict] at hv
  | int n => simp [JVal.isDict] at hv
  | str s => simp [JVal.isDict] at hv
  | arr l => simp [JVal.isDict] at hv

theorem extract_authors_total (fs : List (String × JVal))
    (hwf : wfAuthorships (jlookup fs "authorships") = true) :
    ∃ as, ExtractionService.extract_authors (.obj fs) = .ok as := by
  cases hl : jlookup fs "authorships" with
  | none =>
    refine ⟨[], ?_⟩
    unfold ExtractionService.extract_authors
    rw [pyGetD_obj, hl]
    rfl
  | some v =>
    rw [hl] at hwf
    cases v with
    | arr es =>
      have hall : ∀ e ∈ es, authorshipWF e = true := by
        simpa [wfAuthorships, List.all_eq_true] using hwf
      exact ⟨es.map authorOf, extract_authors_eq fs es hl hall⟩
    | null => simp [wfAuthorships] at hwf
    | bool b => simp [wfAuthorships] at hwf
    | int n => simp [wfAuthorships] at hwf
    | str s => simp [wfAuthorships] at hwf
    | obj ofs => simp [wfAuthorships] at hwf

theorem extract_concepts_total (fs : List (String × JVal))
    (hwf : wfConcepts (jlookup fs "concepts") = true) :
    ∃ cs, ExtractionService.extract_concepts (.obj fs) = .ok cs := by
  cases hl : jlookup fs "concepts" with
  | none =>
    refine ⟨[], ?_⟩
    unfold ExtractionService.extract_concepts
    rw [pyGetD_obj, hl]
    rfl
  | some v =>
    rw [hl] at hwf
    cases v with
    | arr xs =>
      have hall : ∀ x ∈ xs.take 5, x.isDict = true := by
        simpa [wfConcepts, List.all_eq_true] using hwf
      exact ⟨(xs.take 5).map conceptOf, extract_concepts_eq fs xs hl hall⟩
    | null => simp [wfConcepts] at hwf
    | bool b => simp [wfConcepts] at hwf
    | int n => simp [wfConcepts] at hwf
    | str s => simp [wfConcepts] at hwf
    | obj ofs => simp [wfConcepts] at hwf

theorem dictInsert_intKeyed (d : List (JVal × String)) (hd : intKeyed d)
    (n : Int) (w : String) : intKeyed (dictInsert d (.int n) w) := by
  unfold dictInsert
  by_cases h : d.any (fun kv => jvalEq kv.1 (.int n)) = true
  · simp only [h, if_true]
    intro kv hkv
    obtain ⟨kv', hkv', he⟩ := List.mem_map.mp hkv
    by_cases hjv : jvalEq kv'.1 (.int n) = true
    · rw [hjv] at he
      simp at he
      exact ⟨n, by rw [← he]⟩
    · rw [bool_eq_false hjv] at he
      simp at he
      exact he ▸ hd kv' hkv'
  · have h' := bool_eq_false h
    simp only [h', Bool.false_eq_true, if_false]
    intro kv hkv
    rcases List.mem_append.mp hkv with hin | hin
    · exact hd kv hin
    · simp at hin
      exact ⟨n, by rw [hin]⟩

theorem innerFold_intKeyed (w : String) (ps : List JVal)
    (hps : ∀ p ∈ ps, ∃ n : Int, p = .int n) :
    ∀ d, intKeyed d → intKeyed (ps.foldl (fun d p => dictInsert d p w) d) := by
  induction ps with
  | nil => intro d hd; exact hd
  | cons p ps ih =>
    intro d hd
    obtain ⟨n, rfl⟩ := hps p (List.mem_cons_self p ps)
    simp only [List.foldl_cons]
    exact ih (fun q hq => hps q (List.mem_cons_of_mem _ hq)) _ (dictInsert_intKeyed d hd n w)

theorem buildWords_intKeyed (entries : List (String × JVal))
    (hwf : ∀ e ∈ entries, (match e.2 with
      | JVal.arr ps => ps.all fun p => match p with | JVal.int _ => true | _ => false
      | _ => true) = true) :
    intKeyed (buildWords entries) := by
  unfold buildWords
  suffices h : ∀ d, intKeyed d →
      intKeyed (entries.foldl
        (fun d wv =>
          match wv.2 with
          | JVal.arr ps => ps.foldl (fun d p => dictInsert d p wv.1) d
          | _ => d) d) from
    h [] (by intro kv hkv; simp at hkv)
  induction entries with
  | nil => intro d hd; exact hd
  | cons e es ih =>
    intro d hd
    simp only [List.foldl_cons]
    have he := hwf e (List.mem_cons_self e es)
    have ihr := ih (fun x hx => hwf x (List.mem_cons_of_mem _ hx))
    cases hv : e.2 with
    | arr ps =>
      rw [hv] at he
      apply ihr
      apply innerFold_intKeyed
      · intro p hp
        have := (List.all_eq_true.mp he) p hp
        cases p with
        | int n => exact ⟨n, rfl⟩
        | null => simp at this
        | bool b => simp at this
        | str s => simp at this
        | arr l => simp at this
        | obj o => simp at this
      · exact hd
    | null => exact ihr d hd
    | bool b => exact ihr d hd
    | int n => exact ihr d hd
    | str s => exact ihr d hd
    | obj o => exact ihr d hd

theorem asInts_total (ks : List JVal) (h : ∀ k ∈ ks, ∃ n : Int, k = .int n) :
    ∃ ns, asInts ks = some ns := by
  induction ks with
  | nil => exact ⟨[], rfl⟩
  | cons k ks ih =>
    obtain ⟨n, rfl⟩ := h k (List.mem_cons_self k ks)
    obtain ⟨ns, hns⟩ := ih (fun q hq => h q (List.mem_cons_of_mem _ hq))
    exact ⟨n :: ns, by simp [asInts, hns]⟩

theorem reconstruct_abstract_total (fs : List (String × JVal))
    (hwf : wfInverted (jlookup fs "abstract_inverted_index") = true) :
    ∃ s, ExtractionService.reconstruct_abstract (.obj fs) = .ok s := by
  cases hl : jlookup fs "abstract_inverted_index" with
  | none =>
    refine ⟨"", ?_⟩
    unfold ExtractionService.reconstruct_abstract
    rw [pyGet_obj, hl, exc_ok_bind]
    rfl
  | some v =>
    rw [hl] at hwf
    cases v with
    | null => exact ⟨"", by unfold ExtractionService.reconstruct_abstract; rw [pyGet_obj, hl, exc_ok_bind]; rfl⟩
    | bool b =>
      refine ⟨"", ?_⟩
      unfold ExtractionService.reconstruct_abstract
      rw [pyGet_obj, hl, exc_ok_bind]
      simp only [Option.getD_some]
      have hc : (!pyTruthy (JVal.bool b) || !(JVal.bool b).isDict) = true := by
        simp [JVal.isDict]
      rw [hc]
      rfl
    | int n =>
      refine ⟨"", ?_⟩
      unfold ExtractionService.reconstruct_abstract
      rw [pyGet_obj, hl, exc_ok_bind]
      simp only [Option.getD_some]
      have hc : (!pyTruthy (JVal.int n) || !(JVal.int n).isDict) = true := by
        simp [JVal.isDict]
      rw [hc]
      rfl
    | str s =>
      refine ⟨"", ?_⟩
      unfold ExtractionService.reconstruct_abstract
      rw [pyGet_obj, hl, exc_ok_bind]
      simp only [Option.getD_some]
      have hc : (!pyTruthy (JVal.str s) || !(JVal.str s).isDict) = true := by
        simp [JVal.isDict]
      rw [hc]
      rfl
    | arr l =>
      refine ⟨"", ?_⟩
      unfold ExtractionService.reconstruct_abstract
      rw [pyGet_obj, hl, exc_ok_bind]
      simp only [Option.getD_some]
      have hc : (!pyTruthy (JVal.arr l) || !(JVal.arr l).isDict) = true := by
        simp [JVal.isDict]
      rw [hc]
      rfl
    | obj entries =>
      have hall : entries.all (fun e => match e.2 with
          | JVal.arr ps => ps.all fun p => match p with | JVal.int _ => true | _ => false
          | _ => true) = true := hwf
      have hkeys : ∀ k ∈ (buildWords entries).map (·.1), ∃ n : Int, k = JVal.int n := by
        intro k hk
        obtain ⟨kv, hkv, hke⟩ := List.mem_map.mp hk
        have hik := buildWords_intKeyed entries (List.all_eq_true.mp hall) kv hkv
        exact hke ▸ hik
      obtain ⟨ns, hns⟩ := asInts_total _ hkeys
      cases entries with
      | nil =>
        refine ⟨"", ?_⟩
        unfold ExtractionService.reconstruct_abstract
        rw [pyGet_obj, hl, exc_ok_bind]
        rfl
      | cons e es =>
        refine ⟨joinSpace (((ns.insertionSort (· ≤ ·)).map JVal.int).map
          fun k => (dictGet (buildWords (e :: es)) k).getD ""), ?_⟩
        unfold ExtractionService.reconstruct_abstract
        rw [pyGet_obj, hl, exc_ok_bind]
        simp only [Option.getD_some]
        have hc : (!pyTruthy (JVal.obj (e :: es)) || !(JVal.obj (e :: es)).isDict) = false := by
          simp [pyTruthy, JVal.isDict]
        rw [hc]
        simp only [Bool.false_eq_true, if_false]
        show (sortedKeys ((buildWords (e :: es)).map (·.1)) >>= _) = _
        unfold sortedKeys
        rw [hns]
        rfl

theorem wfOA_dict (fs : List (String × JVal))
    (hwf : wfOpenAccess (jlookup fs "open_access") = true) :
    ((jlookup fs "open_access").getD (.obj [])).isDict = true := by
  cases hl : jlookup fs "open_access" with
  | none => rfl
  | some v =>
    rw [hl] at hwf
    cases v with
    | obj ofs => rfl
    | null => simp [wfOpenAccess] at hwf
    | bool b => simp [wfOpenAccess] at hwf
    | int n => simp [wfOpenAccess] at hwf
    | str s => simp [wfOpenAccess] at hwf
    | arr l => simp [wfOpenAccess] at hwf

theorem extract_source_total (fs : List (String × JVal))
    (hwf : wfPrimaryLocation (jlookup fs "primary_location") = true) :
    ∃ v, ExtractionService.extract_source (.obj fs) = .ok v := by
  cases hl : jlookup fs "primary_location" with
  | none =>
    refine ⟨.null, ?_⟩
    unfold ExtractionService.extract_source
    rw [pyGet_obj, hl, exc_ok_bind]
    rfl
  | some v =>
    rw [hl] at hwf
    by_cases htr : pyTruthy v = true
    · unfold wfPrimaryLocation at hwf
      simp only [htr, if_true] at hwf
      cases v with
      | obj pfs =>
        cases hs : jlookup pfs "source" with
        | none =>
          refine ⟨.null, ?_⟩
          unfold ExtractionService.extract_source
          rw [pyGet_obj, hl, exc_ok_bind]
          simp only [Option.getD_some, htr, if_true]
          rw [pyGetD_obj, hl]
          simp only [Option.getD_some]
          rw [exc_ok_bind, pyGet_obj, hs, exc_ok_bind]
          rfl
        | some sv =>
          have hwf2 : (match jlookup pfs "source" with
              | none => true
              | some sv => if pyTruthy sv = true then sv.isDict else true) = true := hwf
          rw [hs] at hwf2
          by_cases hst : pyTruthy sv = true
          · simp only [hst, if_true] at hwf2
            cases sv with
            | obj sfs =>
              refine ⟨(jlookup sfs "display_name").getD .null, ?_⟩
              unfold ExtractionService.extract_source
              rw [pyGet_obj, hl, exc_ok_bind]
              simp only [Option.getD_some, htr, if_true]
              rw [pyGetD_obj, hl]
              simp only [Option.getD_some]
              rw [exc_ok_bind, pyGet_obj, hs, exc_ok_bind]
              simp only [Option.getD_some, hst, if_true]
              rw [exc_ok_bind]
              show (pyGetD (JVal.obj pfs) "source" (JVal.obj []) >>= _) = _
              rw [pyGetD_obj, hs]
              rfl
            | null => simp [JVal.isDict] at hwf2
            | bool b => simp [JVal.isDict] at hwf2
            | int n => simp [JVal.isDict] at hwf2
            | str s => simp [JVal.isDict] at hwf2
            | arr l => simp [JVal.isDict] at hwf2
          · refine ⟨.null, ?_⟩
            unfold ExtractionService.extract_source
            rw [pyGet_obj, hl, exc_ok_bind]
            simp only [Option.getD_some, htr, if_true]
            rw [pyGetD_obj, hl]
            simp only [Option.getD_some]
            rw [exc_ok_bind, pyGet_obj, hs, exc_ok_bind]
            simp only [Option.getD_some, bool_eq_false hst, Bool.false_eq_true, if_false]
            rfl
      | null => simp at hwf
      | bool b => simp at hwf
      | int n => simp at hwf
      | str s => simp at hwf
      | arr l => simp at hwf
    · refine ⟨.null, ?_⟩
      unfold ExtractionService.extract_source
      rw [pyGet_obj, hl, exc_ok_bind]
      simp only [Option.getD_some, bool_eq_false htr, Bool.false_eq_true, if_false]
      rfl

theorem extract_full_text_url_total (fs : List (String × JVal))
    (hwf : wfBestOA (jlookup fs "best_oa_location") = true) :
    ∃ v, ExtractionService.extract_full_text_url (.obj fs) = .ok v := by
  cases hl : jlookup fs "best_oa_location" with
  | none =>
    refine ⟨.null, ?_⟩
    unfold ExtractionService.extract_full_text_url
    rw [pyGet_obj, hl, exc_ok_bind]
    rfl
  | some v =>
    rw [hl] at hwf
    by_cases htr : pyTruthy v = true
    · have hd : v.isDict = true := by
        simpa [wfBestOA, htr] using hwf
      cases v with
      | obj bfs =>
        by_cases hpdf : pyTruthy ((jlookup bfs "pdf_url").getD .null) = true
        · refine ⟨(jlookup bfs "pdf_url").getD .null, ?_⟩
          unfold ExtractionService.extract_full_text_url
          rw [pyGet_obj, hl, exc_ok_bind]
          simp only [Option.getD_some, htr, Bool.not_true, Bool.false_eq_true, if_false]
          rw [pyGet_obj, exc_ok_bind]
          simp only [hpdf, if_true]
          rfl
        · by_cases hlp : pyTruthy ((jlookup bfs "landing_page_url").getD .null) = true
          · refine ⟨(jlookup bfs "landing_page_url").getD .null, ?_⟩
            unfold ExtractionService.extract_full_text_url
            rw [pyGet_obj, hl, exc_ok_bind]
            simp only [Option.getD_some, htr, Bool.not_true, Bool.false_eq_true, if_false]
            rw [pyGet_obj, exc_ok_bind]
            simp only [bool_eq_false hpdf, Bool.false_eq_true, if_false]
            rw [pyGet_obj, exc_ok_bind]
            simp only [hlp, if_true]
            rfl
          · refine ⟨.null, ?_⟩
            unfold ExtractionService.extract_full_text_url
            rw [pyGet_obj, hl, exc_ok_bind]
            simp only [Option.getD_some, htr, Bool.not_true, Bool.false_eq_true, if_false]
            rw [pyGet_obj, exc_ok_bind]
            simp only [bool_eq_false hpdf, Bool.false_eq_true, if_false]
            rw [pyGet_obj, exc_ok_bind]
            simp only [bool_eq_false hlp, Bool.false_eq_true, if_false]
            rfl
      | null => simp [JVal.isDict] at hd
      | bool b => simp [JVal.isDict] at hd
      | int n => simp [JVal.isDict] at hd
      | str s => simp [JVal.isDict] at hd
      | arr l => simp [JVal.isDict] at hd
    · refine ⟨.null, ?_⟩
      unfold ExtractionService.extract_full_text_url
      rw [pyGet_obj, hl, exc_ok_bind]
      simp only [Option.getD_some, bool_eq_false htr, Bool.not_false, if_true]
      rfl

/-- C1 (amended): the normalizer never raises on a record each of whose
optional fields, where present, is well-formed (see `wellFormedWork`) —
which covers every record simply missing any or all optional fields — and
on the record with no fields at all it returns the documented all-defaults
normalized paper. -/
theorem C1_normalizer_totality :
    (∀ w : JVal, wellFormedWork w = true →
        ∃ m, ExtractionService.extract_metadata w = .ok m)
    ∧ ExtractionService.extract_metadata (.obj []) = .ok defaultMetadata := by
  constructor
  · intro w hwf
    cases w with
    | obj fs =>
      simp only [wellFormedWork, Bool.and_eq_true] at hwf
      obtain ⟨⟨⟨⟨⟨⟨hD, hAuth⟩, hInv⟩, hCon⟩, hPL⟩, hOA⟩, hBOA⟩ := hwf
      obtain ⟨as, has⟩ := extract_authors_total fs hAuth
      obtain ⟨ab, hab⟩ := reconstruct_abstract_total fs hInv
      obtain ⟨cs, hcs⟩ := extract_concepts_total fs hCon
      obtain ⟨sv, hsv⟩ := extract_source_total fs hPL
      obtain ⟨fu, hfu⟩ := extract_full_text_url_total fs hBOA
      have hOAd := wfOA_dict fs hOA
      obtain ⟨v1, hv1⟩ := pyGetD_ok_of_dict _ hOAd "is_oa" (.bool false)
      obtain ⟨v2, hv2⟩ := pyGet_ok_of_dict _ hOAd "oa_status"
      refine ⟨Metadata.mk ((jlookup fs "id").getD (.str ""))
        ((jlookup fs "title").getD (.str "")) as ab
        ((jlookup fs "publication_year").getD .null)
        ((jlookup fs "doi").getD (.str ""))
        ((jlookup fs "cited_by_count").getD (.int 0)) cs sv v1 (v2.getD .null) fu, ?_⟩
      simp only [ExtractionService.extract_metadata, pyGetD_obj, pyGet_obj, exc_ok_bind,
        has, hab, hcs, hsv, hfu, hv1, hv2]
      rfl
    | null => simp [wellFormedWork, JVal.isDict] at hwf
    | bool b => simp [wellFormedWork, JVal.isDict] at hwf
    | int n => simp [wellFormedWork, JVal.isDict] at hwf
    | str s => simp [wellFormedWork, JVal.isDict] at hwf
    | arr l => simp [wellFormedWork, JVal.isDict] at hwf
  · rfl

theorem C1_normalizer_totality_witness :
    wellFormedWork (.obj [("title", .str "Minimal Paper")]) = true
    ∧ ∃ m, ExtractionService.extract_metadata (.obj [("title", .str "Minimal Paper")]) = .ok m :=
  ⟨by decide, C1_normalizer_totality.1 (.obj [("title", .str "Minimal Paper")]) (by decide)⟩

theorem C1_normalizer_raises_on_null_field :
    ExtractionService.extract_metadata (.obj [("open_access", JVal.null)])
      = .error "AttributeError" := rfl

/-- C3 (code evaluation): `_extract_full_text_url` returns `None` for a work
whose only content URL sits in `content_urls.pdf` — the third fallback the
specification and the repository's own test
(`tests.py, test_extract_full_text_url_from_content_urls`) expect is not
implemented — while the two `best_oa_location` steps behave as specified. -/
theorem C3_full_text_url_ignores_content_urls :
    ExtractionService.extract_full_text_url
        (.obj [("content_urls", .obj [("pdf", .str "https://content.example.com/paper.pdf")])])
      = .ok JVal.null
    ∧ ExtractionService.extract_full_text_url
        (.obj [("best_oa_location", .obj [("pdf_url", .str "https://oa.example.com/paper.pdf")])])
      = .ok (.str "https://oa.example.com/paper.pdf")
    ∧ ExtractionService.extract_full_text_url
        (.obj [("best_oa_location", .obj [("pdf_url", JVal.null),
          ("landing_page_url", .str "https://pub.example.com/page")])])
      = .ok (.str "https://pub.example.com/page") := ⟨rfl, rfl, rfl⟩

/-- C4 (code evaluation): with `q` missing, the handler does respond `400`,
but the body is the plain message `"Query parameter 'q' is required."` —
there is no machine-readable `missing_query` error code anywhere in it,
although the repository's own test
(`tests.py, test_works_search_missing_query`) asserts
`error.code == "missing_query"`. -/
theorem C4_missing_query_response :
    (∀ client, searchView client ⟨none, none, none, none⟩
      = .ok (.badRequest "Query parameter 'q' is required."))
    ∧ (HttpResponse.badRequest "Query parameter 'q' is required.").status = 400
    ∧ strContains "Query parameter 'q' is required." "missing_query" = false :=
  ⟨fun _ => rfl, rfl, by decide⟩

/-! ## Client error contract -/

theorem search_papers_valid_eval (query : String) (per_page page : Int)
    (er oao : Bool) (oas : Option String)
    (provider : ProviderRequest → Except String (List JVal))
    (hv : ¬ invalidSearchArgs query per_page page oas) :
    OpenAlexService.search_papers provider query per_page page er oao oas =
      match provider (builtRequest query per_page page er oao oas) with
      | .ok rs => .ok rs
      | .error e => .error (.apiError ("Failed to retrieve papers from OpenAlex: " ++ e)) := by
  have h1 : ¬(query = "" ∨ pyStrip query = "") := by
    intro h
    rcases h with h | h
    · exact hv (Or.inl h)
    · exact hv (Or.inr (Or.inl h))
  have h2 : ¬(per_page < 1 ∨ per_page > 200) := by
    intro h
    rcases h with h | h
    · exact hv (Or.inr (Or.inr (Or.inl h)))
    · exact hv (Or.inr (Or.inr (Or.inr (Or.inl h))))
  have h3 : ¬(page < 1) := fun h => hv (Or.inr (Or.inr (Or.inr (Or.inr (Or.inl h)))))
  have h4 : (oas.any fun s => decide (s ∉ validOaStatuses)) = false := by
    cases oas with
    | none => rfl
    | some s0 =>
      have hmem : ¬(s0 ∉ validOaStatuses) := fun hs =>
        hv (Or.inr (Or.inr (Or.inr (Or.inr (Or.inr ⟨s0, rfl, hs⟩)))))
      simp [Option.any, decide_eq_false hmem]
  unfold OpenAlexService.search_papers
  rw [if_neg h1, if_neg h2, if_neg h3, h4]
  simp only [Bool.false_eq_true, if_false]

/-- C7: `search_papers` raises `ValueError` independently of the provider
(hence before any network call) exactly when the input is invalid — query
empty or all-whitespace, `per_page` outside `[1, 200]`, `page` not positive,
or `oa_status` present and not one of gold/green/hybrid/bronze — and on
valid input every provider failure is re-raised as the single wrapped
`OpenAlexAPIError`, while a provider success is passed through, so callers
never see a raw transport error. -/
theorem C7_search_papers_error_contract :
    ∀ (query : String) (per_page page : Int) (er oao : Bool) (oas : Option String),
      ((∃ m, ∀ provider, OpenAlexService.search_papers provider query per_page page er oao oas
          = .error (.invalidArgument m))
        ↔ invalidSearchArgs query per_page page oas)
      ∧ (∀ provider e, ¬ invalidSearchArgs query per_page page oas →
          provider (builtRequest query per_page page er oao oas) = .error e →
          OpenAlexService.search_papers provider query per_page page er oao oas
            = .error (.apiError ("Failed to retrieve papers from OpenAlex: " ++ e)))
      ∧ (∀ provider rs, ¬ invalidSearchArgs query per_page page oas →
          provider (builtRequest query per_page page er oao oas) = .ok rs →
          OpenAlexService.search_papers provider query per_page page er oao oas = .ok rs) := by
  intro query per_page page er oao oas
  refine ⟨⟨?_, ?_⟩, ?_, ?_⟩
  · intro ⟨m, hm⟩
    by_contra hval
    have := hm (fun _ => .ok [])
    rw [search_papers_valid_eval query per_page page er oao oas _ hval] at this
    exact absurd this (by simp)
  · intro hinv
    by_cases h1 : query = "" ∨ pyStrip query = ""
    · exact ⟨"Query must be a non-empty string", fun provider => by
        unfold OpenAlexService.search_papers
        rw [if_pos h1]⟩
    · by_cases h2 : per_page < 1 ∨ per_page > 200
      · exact ⟨"per_page must be an integer between 1 and 200", fun provider => by
          unfold OpenAlexService.search_papers
          rw [if_neg h1, if_pos h2]⟩
      · by_cases h3 : page < 1
        · exact ⟨"page must be a positive integer", fun provider => by
            unfold OpenAlexService.search_papers
            rw [if_neg h1, if_neg h2, if_pos h3]⟩
        · by_cases h4 : (oas.any fun s => decide (s ∉ validOaStatuses)) = true
          · exact ⟨"oa_status must be one of ['gold', 'green', 'hybrid', 'bronze'] or None",
              fun provider => by
                unfold OpenAlexService.search_papers
                rw [if_neg h1, if_neg h2, if_neg h3, h4, if_pos rfl]⟩
          · exfalso
            rcases hinv with h | h | h | h | h | ⟨s, hs, hsm⟩
            · exact h1 (Or.inl h)
            · exact h1 (Or.inr h)
            · exact h2 (Or.inl h)
            · exact h2 (Or.inr h)
            · exact h3 h
            · subst hs
              exact h4 (by simp [Option.any, decide_eq_true hsm])
  · intro provider e hval hp
    rw [search_papers_valid_eval query per_page page er oao oas provider hval, hp]
  · intro provider rs hval hp
    rw [search_papers_valid_eval query per_page page er oao oas provider hval, hp]

theorem C7_search_papers_error_contract_witness :
    (∃ m, ∀ provider, OpenAlexService.search_papers provider "quantum" 500 1 true false none
      = .error (.invalidArgument m))
    ∧ OpenAlexService.search_papers (fun _ => .error "API timeout") "quantum" 25 1 true false none
      = .error (.apiError "Failed to retrieve papers from OpenAlex: API timeout") :=
  ⟨((C7_search_papers_error_contract "quantum" 500 1 true false none).1).mpr
    (Or.inr (Or.inr (Or.inr (Or.inl (by decide))))),
   (C7_search_papers_error_contract "quantum" 25 1 true false none).2.1
    (fun _ => .error "API timeout") "API timeout" (by
      intro h
      rcases h with h | h | h | h | h | ⟨s, hs, _⟩
      · exact absurd h (by decide)
      · exact absurd h (by decide)
      · exact absurd h (by decide)
      · exact absurd h (by decide)
      · exact absurd h (by decide)
      · exact Option.noConfusion hs) rfl⟩

theorem handlerParams_call (req : Request)
    (hq : pyStrip (req.q.getD "") ≠ "")
    (hm : pyStrip (req.mode.getD "relevance") ∈ validModes) :
    handlerParams req = .call
      { query := pyStrip (req.q.getD "")
        per_page := match pyIntParse (req.per_page.getD "25") with
          | some n => if n < 1 ∨ n > 50 then 25 else n
          | none => 25
        page := 1
        exclude_retracted := true
        open_access_only := decide (pyStrip (req.mode.getD "relevance") = "open_access")
        oa_status := req.oa_status } := by
  simp only [handlerParams]
  rw [if_neg hq, if_neg (fun hn => hn hm)]

theorem clampedPerPage_bounds (r : String) :
    1 ≤ (match pyIntParse r with
      | some n => if n < 1 ∨ n > 50 then 25 else n
      | none => (25 : Int))
    ∧ (match pyIntParse r with
      | some n => if n < 1 ∨ n > 50 then 25 else n
      | none => (25 : Int)) ≤ 50 := by
  cases h : pyIntParse r with
  | none => exact ⟨by norm_num, by norm_num⟩
  | some n =>
    show 1 ≤ (if n < 1 ∨ n > 50 then (25 : Int) else n)
      ∧ (if n < 1 ∨ n > 50 then (25 : Int) else n) ≤ 50
    by_cases hb : n < 1 ∨ n > 50
    · rw [if_pos hb]
      exact ⟨by norm_num, by norm_num⟩
    · rw [if_neg hb]
      push_neg at hb
      exact ⟨by omega, by omega⟩

theorem searchView_call (client : ClientArgs → Except SearchErr (List JVal))
    (req : Request) (args : ClientArgs) (h : handlerParams req = .call args) :
    searchView client req =
      (match client args with
       | .error (.invalidArgument msg) => .ok (.badRequest msg)
       | .error (.apiError msg) => .ok (.badGateway msg)
       | .ok raw_results => do
          let papers ← mapE ExtractionService.extract_metadata raw_results
          pure (.ok200 papers papers.length (pyStrip (req.mode.getD "relevance"))
            (pyStrip (req.q.getD "")))) := by
  unfold searchView
  rw [h]

/-- C8 (counterexample): a valid request with `mode=open_access` that also
carries `oa_status=gold` makes the handler invoke the client with the
`oa_status` filter parameter set in addition to `openAccessOnly`, and the
resulting provider request carries the `oa_status` filter — so "no other
filters set" fails as a universal statement about valid `open_access`
requests. -/
theorem C8_oa_status_forwarded_counterexample :
    handlerParams ⟨some "x", some "open_access", none, some "gold"⟩
      = .call ⟨"x", 25, 1, true, true, some "gold"⟩
    ∧ (some "gold" : Option String) ≠ none
    ∧ builtRequest "x" 25 1 true true (some "gold")
      = ⟨"x", [.isRetracted false, .isOA true, .oaStatus "gold"], 25, 1⟩ :=
  ⟨by decide, by decide, by decide⟩

/-- C8 (amended): for every valid request the handler's mode translation
sets `open_access_only` exactly for `mode=open_access`, leaves `page` and
`exclude_retracted` at the client defaults `1` and `True`, forwards
`oa_status` verbatim from the request (so it is `none` — no other filter —
exactly when the request carried none), and performs no local re-ranking:
the `200` body is the provider's list mapped through the normalizer in
order. -/
theorem C8_mode_translation :
    ∀ (req : Request) (mode query : String),
      pyStrip (req.q.getD "") = query → query ≠ "" →
      pyStrip (req.mode.getD "relevance") = mode → mode ∈ validModes →
      ∃ args, handlerParams req = .call args
        ∧ (args.open_access_only = true ↔ mode = "open_access")
        ∧ args.exclude_retracted = true
        ∧ args.page = 1
        ∧ args.oa_status = req.oa_status
        ∧ args.query = query
        ∧ (∀ client raws papers,
            client args = .ok raws →
            mapE ExtractionService.extract_metadata raws = .ok papers →
            searchView client req = .ok (.ok200 papers papers.length mode query)) := by
  intro req mode query hq hqne hm hmode
  have hcall := handlerParams_call req (hq ▸ hqne) (hm ▸ hmode)
  rw [hq, hm] at hcall
  refine ⟨_, hcall, by simp, rfl, rfl, rfl, rfl, ?_⟩
  intro client raws papers hclient hmap
  rw [searchView_call client req _ hcall, hclient]
  show (do
    let papers ← mapE ExtractionService.extract_metadata raws
    pure (HttpResponse.ok200 papers papers.length (pyStrip (req.mode.getD "relevance"))
      (pyStrip (req.q.getD "")))) = _
  rw [hmap, exc_ok_bind, hq, hm]
  rfl

theorem C8_mode_translation_witness :
    ∃ args, handlerParams ⟨some "nlp", some "open_access", none, none⟩ = .call args
      ∧ (args.open_access_only = true ↔ "open_access" = "open_access")
      ∧ args.exclude_retracted = true
      ∧ args.page = 1
      ∧ args.oa_status = (⟨some "nlp", some "open_access", none, none⟩ : Request).oa_status
      ∧ args.query = "nlp"
      ∧ (∀ client raws papers,
          client args = .ok raws →
          mapE ExtractionService.extract_metadata raws = .ok papers →
          searchView client ⟨some "nlp", some "open_access", none, none⟩
            = .ok (.ok200 papers papers.length "open_access" "nlp")) :=
  C8_mode_translation ⟨some "nlp", some "open_access", none, none⟩ "open_access" "nlp"
    (by decide) (by decide) (by decide) (by decide)

/-- C9: for every request that passes the query and mode checks, the handler
reaches the client call (per-page problems never produce an error response);
a `per_page` that parses into `[1, 50]` is used as given, while an
unparsable or out-of-range one is silently replaced by the default 25. -/
theorem C9_per_page_clamping :
    ∀ req : Request,
      pyStrip (req.q.getD "") ≠ "" →
      pyStrip (req.mode.getD "relevance") ∈ validModes →
      ∃ args, handlerParams req = .call args
        ∧ (∀ n : Int, pyIntParse (req.per_page.getD "25") = some n →
            1 ≤ n → n ≤ 50 → args.per_page = n)
        ∧ (∀ n : Int, pyIntParse (req.per_page.getD "25") = some n →
            (n < 1 ∨ 50 < n) → args.per_page = 25)
        ∧ (pyIntParse (req.per_page.getD "25") = none → args.per_page = 25) := by
  intro req hq hm
  refine ⟨_, handlerParams_call req hq hm, ?_, ?_, ?_⟩
  · intro n hn h1 h2
    show ((match pyIntParse (req.per_page.getD "25") with
      | some n => if n < 1 ∨ n > 50 then 25 else n
      | none => 25) : Int) = n
    rw [hn]
    show (if n < 1 ∨ n > 50 then (25 : Int) else n) = n
    exact if_neg (by omega)
  · intro n hn hout
    show ((match pyIntParse (req.per_page.getD "25") with
      | some n => if n < 1 ∨ n > 50 then 25 else n
      | none => 25) : Int) = 25
    rw [hn]
    show (if n < 1 ∨ n > 50 then (25 : Int) else n) = 25
    exact if_pos (by omega)
  · intro hn
    show ((match pyIntParse (req.per_page.getD "25") with
      | some n => if n < 1 ∨ n > 50 then 25 else n
      | none => 25) : Int) = 25
    rw [hn]

theorem C9_per_page_clamping_witness :
    (∃ args, handlerParams ⟨some "ai", none, some "7", none⟩ = .call args
      ∧ args.per_page = 7)
    ∧ (∃ args, handlerParams ⟨some "ai", none, some "999", none⟩ = .call args
      ∧ args.per_page = 25)
    ∧ (∃ args, handlerParams ⟨some "ai", none, some "abc", none⟩ = .call args
      ∧ args.per_page = 25) := by
  refine ⟨?_, ?_, ?_⟩
  · obtain ⟨args, hc, h1, _, _⟩ :=
      C9_per_page_clamping ⟨some "ai", none, some "7", none⟩ (by decide) (by decide)
    exact ⟨args, hc, h1 7 (by decide) (by decide) (by decide)⟩
  · obtain ⟨args, hc, _, h2, _⟩ :=
      C9_per_page_clamping ⟨some "ai", none, some "999", none⟩ (by decide) (by decide)
    exact ⟨args, hc, h2 999 (by decide) (by decide)⟩
  · obtain ⟨args, hc, _, _, h3⟩ :=
      C9_per_page_clamping ⟨some "ai", none, some "abc", none⟩ (by decide) (by decide)
    exact ⟨args, hc, h3 (by decide)⟩

/-- C10: the handler itself never validates `oa_status`; with a non-empty
trimmed query and a valid mode, an invalid `oa_status` flows into the
client, whose `ValueError` the handler maps to a `400` with the client's
message — independently of the provider, which is never consulted. -/
theorem C10_invalid_oa_status_400 :
    ∀ (req : Request) (provider : ProviderRequest → Except String (List JVal)) (s : String),
      pyStrip (req.q.getD "") ≠ "" →
      pyStrip (req.mode.getD "relevance") ∈ validModes →
      req.oa_status = some s → s ∉ validOaStatuses →
      searchEndpoint provider req
        = .ok (.badRequest
            "oa_status must be one of ['gold', 'green', 'hybrid', 'bronze'] or None") := by
  intro req provider s hq hm hoa hbad
  have hbounds := clampedPerPage_bounds (req.per_page.getD "25")
  have hsp : OpenAlexService.search_papers provider (pyStrip (req.q.getD ""))
      (match pyIntParse (req.per_page.getD "25") with
        | some n => if n < 1 ∨ n > 50 then 25 else n
        | none => 25) 1 true
      (decide (pyStrip (req.mode.getD "relevance") = "open_access")) req.oa_status
      = .error (.invalidArgument
          "oa_status must be one of ['gold', 'green', 'hybrid', 'bronze'] or None") := by
    have hq2 : ¬(pyStrip (req.q.getD "") = "" ∨ pyStrip (pyStrip (req.q.getD "")) = "") := by
      intro h
      rcases h with h | h
      · exact hq h
      · rw [pyStrip_idem] at h
        exact hq h
    have hpp : ¬((match pyIntParse (req.per_page.getD "25") with
        | some n => if n < 1 ∨ n > 50 then 25 else n
        | none => (25 : Int)) < 1
      ∨ (match pyIntParse (req.per_page.getD "25") with
        | some n => if n < 1 ∨ n > 50 then 25 else n
        | none => (25 : Int)) > 200) := by
      obtain ⟨hb1, hb2⟩ := hbounds
      intro h
      rcases h with h | h <;> omega
    have hpage : ¬((1 : Int) < 1) := by norm_num
    unfold OpenAlexService.search_papers
    rw [if_neg hq2, if_neg hpp, if_neg hpage, hoa]
    have hany : ((some s).any fun s => decide (s ∉ validOaStatuses)) = true := by
      simp [Option.any, decide_eq_true hbad]
    rw [hany, if_pos rfl]
  unfold searchEndpoint
  rw [searchView_call _ req _ (handlerParams_call req hq hm)]
  simp only [hsp]

theorem C10_invalid_oa_status_400_witness :
    searchEndpoint (fun _ => .ok []) ⟨some "x", none, none, some "diamond"⟩
      = .ok (.badRequest
          "oa_status must be one of ['gold', 'green', 'hybrid', 'bronze'] or None") :=
  C10_invalid_oa_status_400 ⟨some "x", none, none, some "diamond"⟩ (fun _ => .ok [])
    "diamond" (by decide) (by decide) rfl (by decide)
